import Mathlib

/-!
Verification of the Pyjion core against its specification.

Shallow embedding of the studied source slice:
* `src/Pyjion/absint.h` — `AbstractLocalInfo`, `InterpreterState` (pop / pop_no_escape);
* `src/unnamed/part_001` — `InstructionGraph` (constructor, `fixInstructions`,
  `deoptimizeInstructions`, `fixLocals`, `fixEdges`, `getEdges`, `getEdgesFrom`);
* `src/Tests/test_ilgen.cpp` and `src/unnamed/part_000` — observable behaviour of compiled
  functions pinned by the test suite (bytearray subscripts).

Code that the claims depend on but that is not under `src/` (absvalue.cpp, unboxing.h,
the IL emitter) is modelled from the specification; every such definition carries a
doc comment starting with "Modelled from the spec:".
-/

namespace Pyjion

/-! ## Abstract value kinds -/

/-- Modelled from the spec: the closed family of abstract value kinds
(absvalue.h is not under src/; the spec lists the kinds in section 2.1). -/
inductive AbstractValueKind where
  | AVK_Any
  | AVK_Undefined
  | AVK_Integer
  | AVK_Float
  | AVK_Bool
  | AVK_Bytes
  | AVK_String
  | AVK_List
  | AVK_Tuple
  | AVK_Set
  | AVK_Dict
  | AVK_Function
  | AVK_Slice
  | AVK_Type
  | AVK_None
  | AVK_Complex
  | AVK_Code
  | AVK_Module
  | AVK_Bytearray
  | AVK_Memoryview
  | AVK_Iterable
  deriving DecidableEq, Repr, Fintype, Inhabited

/-- Modelled from the spec: `AbstractValue::merge_with` acting on kinds
(absvalue.cpp is not under src/).  The spec's merge rule: `merge(a,b) = a` if `a == b`;
the `Undefined` value is the identity element under merge; any other pair whose join is
not representable becomes `Any`. -/
def mergeKind (a b : AbstractValueKind) : AbstractValueKind :=
  if a = b then a
  else if a = AbstractValueKind.AVK_Undefined then b
  else if b = AbstractValueKind.AVK_Undefined then a
  else AbstractValueKind.AVK_Any

/-- Modelled from the spec: a source-tracked value `(value, source)` as it appears in the
analyser's locals.  Sources are modelled as the set of arena handles backing the
(possibly merged) source; the source merge of the spec is the union of the handle sets. -/
structure AbstractValueWithSources where
  Value : AbstractValueKind
  Sources : Finset ℕ
  deriving DecidableEq

/-- Modelled from the spec: `AbstractValueWithSources::merge_with` (absvalue.cpp is not
under src/): kind-wise merge of the values, union of the source handle sets. -/
def AbstractValueWithSources.merge_with (a b : AbstractValueWithSources) :
    AbstractValueWithSources :=
  ⟨mergeKind a.Value b.Value, a.Sources ∪ b.Sources⟩

/-! ## AbstractLocalInfo (src/Pyjion/absint.h lines 127-155) -/

/-- `AbstractLocalInfo` from absint.h: a `(value+source, maybeUndefined)` pair. -/
structure AbstractLocalInfo where
  ValueInfo : AbstractValueWithSources
  IsMaybeUndefined : Bool
  deriving DecidableEq

/-- The `AbstractLocalInfo(valueInfo, isUndefined)` constructor (absint.h lines 133-138).
Its asserts (`valueInfo.Value != nullptr`, `!(valueInfo.Value == &Undefined && !isUndefined)`)
are preconditions stated in the theorems; the body stores the pair. -/
def AbstractLocalInfo.make (valueInfo : AbstractValueWithSources) (isUndefined : Bool) :
    AbstractLocalInfo :=
  ⟨valueInfo, isUndefined⟩

/-- `AbstractLocalInfo::merge_with` (absint.h lines 140-145): merge the value infos,
or the undefined flags. -/
def AbstractLocalInfo.merge_with (x other : AbstractLocalInfo) : AbstractLocalInfo :=
  ⟨x.ValueInfo.merge_with other.ValueInfo, x.IsMaybeUndefined || other.IsMaybeUndefined⟩

/-- The state-4 invariant of absint.h (lines 121-126): `Type == Undefined` with
`IsMaybeUndefined == false` "should never happen". -/
def AbstractLocalInfo.Inv (li : AbstractLocalInfo) : Prop :=
  li.ValueInfo.Value = AbstractValueKind.AVK_Undefined → li.IsMaybeUndefined = true

/-! ## InterpreterState (src/Pyjion/absint.h lines 169-223) -/

/-- `InterpreterState` from absint.h: the analyser's stack of source-tracked values and
the per-local infos.  `escapedSources` models the escape bits living on the shared
`AbstractSource` objects (absvalue is not under src/; the spec gives each source an
escape bit that `escapes()` sets): it is the set of source handles marked escaped. -/
structure InterpreterState where
  m_stack : List AbstractValueWithSources
  m_locals : List AbstractLocalInfo
  escapedSources : Finset ℕ
  deriving DecidableEq

/-- `InterpreterState::pop` (absint.h lines 192-198): assert the stack is non-empty
(modelled as `Option`), read the back, mark its sources escaped, pop it, return the
value.  The back of the `std::vector` is the last element of the list. -/
def InterpreterState.pop (s : InterpreterState) :
    Option (AbstractValueKind × InterpreterState) :=
  match s.m_stack.getLast? with
  | none => none
  | some res =>
      some (res.Value, ⟨s.m_stack.dropLast, s.m_locals, s.escapedSources ∪ res.Sources⟩)

/-- `InterpreterState::pop_no_escape` (absint.h lines 200-205): same but without marking
the sources escaped, returning the whole source-tracked value. -/
def InterpreterState.pop_no_escape (s : InterpreterState) :
    Option (AbstractValueWithSources × InterpreterState) :=
  match s.m_stack.getLast? with
  | none => none
  | some res =>
      some (res, ⟨s.m_stack.dropLast, s.m_locals, s.escapedSources⟩)

/-! ## Bytearray subscript behaviour (C1)

The bytecode-to-IL driver and the runtime subscript helpers are not under src/; the
observable behaviour of a compiled bytearray subscript is pinned by the test suite
in src/unnamed/part_000, TEST_CASE("Test bytearray") (lines 677-722). -/

/-- Python exception kinds needed by the bytearray scenarios. -/
inductive PyExc where
  | IndexError
  deriving DecidableEq, Repr

/-- Modelled from the spec: the reference ("host") interpreter's semantics of
subscripting a bytearray with a constant integer index — standard host-language
semantics: a negative index counts from the end, an out-of-range index raises
IndexError.  The host interpreter itself is outside the studied source. -/
def hostByteArraySubscript (b : List ℕ) (i : ℤ) : Except PyExc ℕ :=
  if 0 ≤ i ∧ i < (b.length : ℤ) then
    Except.ok (b.getD i.toNat 0)
  else if -(b.length : ℤ) ≤ i ∧ i < 0 then
    Except.ok (b.getD (i + (b.length : ℤ)).toNat 0)
  else
    Except.error PyExc.IndexError

/-- Modelled from the spec: the compiled function's bytearray subscript at a constant
index.  The emitting code is not under src/; its observable behaviour is pinned by the
assertions of TEST_CASE("Test bytearray") in src/unnamed/part_000: for
`x = bytearray(b'12')`, `x[0]` returns 49, `x[1]` returns 50, `x[2]` raises IndexError,
and `x[-1]` raises IndexError (section "test slice -ve index error", lines 706-712) —
a bounds-checked unboxed access with no negative-index wrap-around. -/
def compiledByteArraySubscript (b : List ℕ) (i : ℤ) : Except PyExc ℕ :=
  if 0 ≤ i ∧ i < (b.length : ℤ) then
    Except.ok (b.getD i.toNat 0)
  else
    Except.error PyExc.IndexError

/-! ## The instruction graph (src/unnamed/part_001)

The bytecode is a list of 2-byte code units `(opcode, oparg)`; `py_opindex` values are
byte offsets, so consecutive units sit at offsets 0, 2, 4, ....  The opcode numbers are
those of the targeted CPython (3.9/3.10 era). -/

def EXTENDED_ARG : ℕ := 144
def LOAD_FAST : ℕ := 124
def STORE_FAST : ℕ := 125
def LOAD_CONST : ℕ := 100
def BINARY_ADD : ℕ := 23

/-- `Instruction` from instructions.h as used by src/unnamed/part_001. -/
structure Instruction where
  index : ℕ
  opcode : ℕ
  oparg : ℕ
  escape : Bool
  deriving DecidableEq, Repr, Inhabited

/-- The box/unbox transition painted on an edge (`NoEscape`, `Unbox`, `Box`, `Unboxed`). -/
inductive EscapeTransition where
  | NoEscape
  | Unbox
  | Box
  | Unboxed
  deriving DecidableEq, Repr

/-- `Edge` from instructions.h as used by src/unnamed/part_001: producer index (`-1` is
the FRAME/no-producer sentinel), consumer index, value kind, stack position, transition.
The purely diagnostic `label`, `value` and `source` fields (used only by `printGraph`)
are omitted. -/
structure Edge where
  «from» : ℤ
  «to» : ℕ
  kind : AbstractValueKind
  position : ℕ
  escaped : EscapeTransition
  deriving DecidableEq, Repr

/-- The instruction graph: the `instructions` unordered_map is modelled as an
association list (key, instruction) in iteration order, with unique keys in any graph
the constructor builds; `edges` is the edge vector. -/
structure InstructionGraph where
  instructions : List (ℕ × Instruction)
  edges : List Edge
  deriving DecidableEq, Repr

/-- Lookup in the instructions map; a missing key yields the value-initialised
`Instruction` (all fields zero / false), matching `unordered_map::operator[]`'s
default insertion. -/
def lookupN (l : List (ℕ × Instruction)) (idx : ℕ) : Instruction :=
  match l.find? (fun kv => kv.1 == idx) with
  | some kv => kv.2
  | none => default

/-- Lookup by a signed index (edges' `from` field): `instructions[-1]` and other absent
keys give the default instruction, whose escape flag is false. -/
def lookupZ (l : List (ℕ × Instruction)) (idx : ℤ) : Instruction :=
  match l.find? (fun kv => (kv.1 : ℤ) == idx) with
  | some kv => kv.2
  | none => default

/-- `InstructionGraph::getEdges(idx)` (part_001 lines 225-242): the inbound edges of
`idx`.  An `EdgeMap` keyed by position is filled by iteration (a later edge with the
same position overwrites an earlier one — hence `getLast?`), the maximal position is
tracked, and positions 0..max are emitted in ascending order, skipping absent ones. -/
def edgesTo (edges : List Edge) (idx : ℕ) : List Edge :=
  let filtered := edges.filter (fun e => e.to == idx)
  let maxPosition := filtered.foldl (fun m e => max m e.position) 0
  (List.range (maxPosition + 1)).filterMap
    (fun p => (filtered.filter (fun e => e.position == p)).getLast?)

/-- `InstructionGraph::getEdgesFrom(idx)` (part_001 lines 244-261): the outbound edges
of `idx`, assembled exactly like `getEdges` but filtering on the `from` field. -/
def edgesFrom (edges : List Edge) (idx : ℕ) : List Edge :=
  let filtered := edges.filter (fun e => e.«from» == (idx : ℤ))
  let maxPosition := filtered.foldl (fun m e => max m e.position) 0
  (List.range (maxPosition + 1)).filterMap
    (fun p => (filtered.filter (fun e => e.position == p)).getLast?)

/-- The instruction-decoding part of the `InstructionGraph` constructor (part_001
lines 34-77): walk the code units recording an `Instruction` per index with
`escape = false`.  An `EXTENDED_ARG` unit is recorded at its own index, then the next
unit is read, its oparg collapsed as `(oparg << 8) | next`, and the merged instruction
recorded at the next index; note that the source performs this merge with an `if`, so
only ONE prefix is collapsed — a second consecutive `EXTENDED_ARG` is treated as an
ordinary instruction.  A trailing `EXTENDED_ARG` makes the source read one code unit
past the end of the bytecode; that out-of-bounds unit is modelled as `(0, 0)`. -/
def buildInstructions : List (ℕ × ℕ) → ℕ → List (ℕ × Instruction)
  | [], _ => []
  | (opcode, oparg) :: rest, curByte =>
    if opcode = EXTENDED_ARG then
      match rest with
      | [] =>
        [(curByte, ⟨curByte, EXTENDED_ARG, oparg, false⟩),
         (curByte + 2, ⟨curByte + 2, 0, oparg <<< 8, false⟩)]
      | (opcode2, oparg2) :: rest2 =>
        (curByte, ⟨curByte, EXTENDED_ARG, oparg, false⟩) ::
        (curByte + 2, ⟨curByte + 2, opcode2, (oparg <<< 8) ||| oparg2, false⟩) ::
        buildInstructions rest2 (curByte + 4)
    else
      (curByte, ⟨curByte, opcode, oparg, false⟩) :: buildInstructions rest (curByte + 2)

/-- Modelled from the spec: the view of an `AbstractSource` that the graph constructor
uses (absvalue is not under src/): the producing opcode index (`-1` for FRAME/const
sentinels) and the consumer map — `isConsumedBy(index)` returns the stack position at
which the source is consumed by `index`, or -1 (modelled as `none`). -/
structure AbstractSourceModel where
  producer : ℤ
  consumedAt : ℕ → Option ℕ

/-- Modelled from the spec: an element of the analyser's stack as the graph constructor
reads it — `hasValue()/Value->kind()` and `hasSource()/Sources` become options. -/
structure StackEntryModel where
  Value : Option AbstractValueKind
  Sources : Option AbstractSourceModel

/-- The edge-collection step of the constructor for one visited index (part_001
lines 52-70): if the analyser recorded a stack for this index, every entry with a
source consumed at this index contributes one edge. -/
def edgesAtIndex («stacks» : ℕ → Option (List StackEntryModel)) (index : ℕ) : List Edge :=
  match «stacks» index with
  | none => []
  | some stack =>
      stack.filterMap (fun si =>
        match si.Sources with
        | none => none
        | some src =>
            match src.consumedAt index with
            | none => none
            | some stackPosition =>
                some ⟨src.producer, index,
                      (match si.Value with
                       | some k => k
                       | none => AbstractValueKind.AVK_Any),
                      stackPosition, EscapeTransition.NoEscape⟩)

/-- The edge-building part of the constructor loop: mirrors `buildInstructions`; for an
`EXTENDED_ARG` pair the stack lookup happens at the index of the merged (inner)
instruction only. -/
def buildEdges («stacks» : ℕ → Option (List StackEntryModel)) :
    List (ℕ × ℕ) → ℕ → List Edge
  | [], _ => []
  | (opcode, _) :: rest, curByte =>
    if opcode = EXTENDED_ARG then
      match rest with
      | [] => edgesAtIndex «stacks» (curByte + 2)
      | _ :: rest2 =>
          edgesAtIndex «stacks» (curByte + 2) ++ buildEdges «stacks» rest2 (curByte + 4)
    else
      edgesAtIndex «stacks» curByte ++ buildEdges «stacks» rest (curByte + 2)

/-- The state of the graph after the decoding loop of the constructor, before the four
fix-up passes run. -/
def InstructionGraph.build (units : List (ℕ × ℕ))
    («stacks» : ℕ → Option (List StackEntryModel)) : InstructionGraph :=
  ⟨buildInstructions units 0, buildEdges «stacks» units 0⟩

/-- The per-instruction escape decision of `InstructionGraph::fixInstructions`
(part_001 lines 104-132): skip opcodes outside the unboxing whitelist, skip
LOAD_FAST/STORE_FAST (deferred to fixLocals), and otherwise set `escape = true` iff
every inbound and every outbound edge's kind supports escaping. -/
def fixInstructionOne (supportsUnboxing : ℕ → Bool)
    (supportsEscaping : AbstractValueKind → Bool)
    (edges : List Edge) (pc : ℕ) (i : Instruction) : Instruction :=
  if !supportsUnboxing i.opcode then i
  else if i.opcode = LOAD_FAST ∨ i.opcode = STORE_FAST then i
  else if !(edgesTo edges pc).all (fun e => supportsEscaping e.kind) then i
  else if !(edgesFrom edges pc).all (fun e => supportsEscaping e.kind) then i
  else { i with escape := true }

/-- `InstructionGraph::fixInstructions` (part_001 lines 104-132).  The loop only ever
writes the escape flag of the instruction being visited, and its decision depends only
on the (unchanging) edges, so it is a map over the entries. -/
def InstructionGraph.fixInstructions (supportsUnboxing : ℕ → Bool)
    (supportsEscaping : AbstractValueKind → Bool) (g : InstructionGraph) :
    InstructionGraph :=
  { g with instructions :=
             g.instructions.map
               (fun kv => (kv.1, fixInstructionOne supportsUnboxing supportsEscaping
                                   g.edges kv.1 kv.2)) }

/-- Clear the escape flag of the entry with the given key (the in-place
`instruction.second.escape = false` writes of `deoptimizeInstructions`). -/
def setEscapeFalse (l : List (ℕ × Instruction)) (pc : ℕ) : List (ℕ × Instruction) :=
  l.map (fun kv => if kv.1 = pc then (kv.1, { kv.2 with escape := false }) else kv)

/-- `2^64`: the stack-effect comparison in `deoptimizeInstructions` compares an `int`
with a `size_t` difference, so both sides are taken modulo `2^64`. -/
def twoPow64 : ℤ := 18446744073709551616

/-- One iteration of the `deoptimizeInstructions` loop visiting the instruction with
key `pc` (part_001 lines 135-167): skip non-escaped instructions; clear the escape
flag when the opcode table's stack effect differs (as `size_t`) from
`|outbound| - |inbound|`; clear it when the instruction has no inputs and a single
output edge whose consumer is not escaped; clear it when it has a single input edge
and no outputs and the producer is not escaped. -/
def deoptStep (stackEffect : ℕ → ℕ → ℤ) (edges : List Edge)
    (cur : List (ℕ × Instruction)) (pc : ℕ) : List (ℕ × Instruction) :=
  let ins := lookupN cur pc
  if !ins.escape then cur
  else
    let edgesIn := edgesTo edges pc
    let edgesOut := edgesFrom edges pc
    if (stackEffect ins.opcode ins.oparg) % twoPow64 ≠
        (((edgesOut.length : ℤ) - (edgesIn.length : ℤ)) % twoPow64) then
      setEscapeFalse cur pc
    else
      match edgesIn, edgesOut with
      | [], [eOut] =>
          if !(lookupN cur eOut.to).escape then setEscapeFalse cur pc else cur
      | [eIn], [] =>
          if !(lookupZ cur eIn.«from»).escape then setEscapeFalse cur pc else cur
      | _, _ => cur

/-- `InstructionGraph::deoptimizeInstructions` (part_001 lines 134-168), with
`PyCompile_OpcodeStackEffect` (a CPython API) as the `stackEffect` parameter: one pass
over the instruction entries, each visit mutating at most the visited instruction. -/
def InstructionGraph.deoptimizeInstructions (stackEffect : ℕ → ℕ → ℤ)
    (g : InstructionGraph) : InstructionGraph :=
  { g with instructions :=
             (g.instructions.map Prod.fst).foldl (deoptStep stackEffect g.edges)
               g.instructions }

/-- `InstructionGraph::fixLocals` (part_001 lines 170-176): the loop body only filters
on LOAD_FAST/STORE_FAST and contains a TODO; it mutates nothing. -/
def InstructionGraph.fixLocals (g : InstructionGraph) : InstructionGraph := g

/-- The transition painted on one edge by `fixEdges` (part_001 lines 84-102), from the
escape flags of the producer and consumer instructions. -/
def fixEdgeTransition (instrs : List (ℕ × Instruction)) (e : Edge) : EscapeTransition :=
  if !(lookupZ instrs e.«from»).escape then
    if (lookupN instrs e.to).escape then EscapeTransition.Unbox
    else EscapeTransition.NoEscape
  else
    if (lookupN instrs e.to).escape then EscapeTransition.Unboxed
    else EscapeTransition.Box

/-- `InstructionGraph::fixEdges` (part_001 lines 84-102). -/
def InstructionGraph.fixEdges (g : InstructionGraph) : InstructionGraph :=
  { g with edges :=
             g.edges.map
               (fun e => { e with escaped := fixEdgeTransition g.instructions e }) }

/-- The whole `InstructionGraph` constructor (part_001 lines 31-82): decode and collect
edges, then `fixInstructions`, `deoptimizeInstructions`, `fixLocals`, `fixEdges`.
`supportsUnboxing` / `supportsEscaping` come from unboxing.h and
`PyCompile_OpcodeStackEffect` from CPython, none of which are under src/; the spec
treats them as parameters. -/
def InstructionGraph.construct (supportsUnboxing : ℕ → Bool)
    (supportsEscaping : AbstractValueKind → Bool) (stackEffect : ℕ → ℕ → ℤ)
    (units : List (ℕ × ℕ)) («stacks» : ℕ → Option (List StackEntryModel)) :
    InstructionGraph :=
  InstructionGraph.fixEdges
    (InstructionGraph.fixLocals
      (InstructionGraph.deoptimizeInstructions stackEffect
        (InstructionGraph.fixInstructions supportsUnboxing supportsEscaping
          (InstructionGraph.build units «stacks»))))

/-- A concrete whitelist for the C2 witness: only BINARY_ADD unboxes. -/
def supportsUnboxingW : ℕ → Bool := fun op => op == BINARY_ADD

/-! ## C3: the 2-by-2 boxing-transition table -/

/-- The spec's 2-by-2 table `(escape(from), escape(to)) → transition`, stated from the
spec's words for comparison with `fixEdgeTransition`. -/
def boxingTransitionTable (fromEscape toEscape : Bool) : EscapeTransition :=
  match fromEscape, toEscape with
  | false, false => EscapeTransition.NoEscape
  | false, true => EscapeTransition.Unbox
  | true, true => EscapeTransition.Unboxed
  | true, false => EscapeTransition.Box

theorem mergeKind_eq_undefined : ∀ a b : AbstractValueKind,
    mergeKind a b = AbstractValueKind.AVK_Undefined →
    a = AbstractValueKind.AVK_Undefined ∧ b = AbstractValueKind.AVK_Undefined := by
  decide

theorem mergeKind_comm : ∀ a b : AbstractValueKind, mergeKind a b = mergeKind b a := by
  decide

theorem mergeKind_self : ∀ a : AbstractValueKind, mergeKind a a = a := by
  decide

/-- C8: no reachable `AbstractLocalInfo` pairs the `Undefined` abstract value with
`IsMaybeUndefined = false`: the constructor establishes the invariant under its own
assert, and `merge_with` preserves it, the merged `IsMaybeUndefined` being the
disjunction of the two input flags. -/
theorem claim_C8 :
    (∀ (valueInfo : AbstractValueWithSources) (isUndefined : Bool),
        ¬(valueInfo.Value = AbstractValueKind.AVK_Undefined ∧ isUndefined = false) →
        (AbstractLocalInfo.make valueInfo isUndefined).Inv) ∧
    (∀ x y : AbstractLocalInfo, x.Inv → y.Inv →
        (x.merge_with y).Inv ∧
        (x.merge_with y).IsMaybeUndefined = (x.IsMaybeUndefined || y.IsMaybeUndefined)) := by
  constructor
  · intro valueInfo isUndefined h hval
    cases isUndefined with
    | false => exact absurd ⟨hval, rfl⟩ h
    | true => rfl
  · intro x y hx hy
    refine ⟨?_, rfl⟩
    intro hmerge
    have hboth := mergeKind_eq_undefined _ _ hmerge

    have h1 := hx hboth.1
    have h2 := hy hboth.2
    simp [AbstractLocalInfo.merge_with, h1, h2]

/-- Witness for C8 at concrete inputs. -/
theorem claim_C8_witness :
    ((AbstractLocalInfo.mk ⟨AbstractValueKind.AVK_Integer, ∅⟩ false).merge_with
        (AbstractLocalInfo.mk ⟨AbstractValueKind.AVK_Undefined, ∅⟩ true)).Inv ∧
    ((AbstractLocalInfo.mk ⟨AbstractValueKind.AVK_Integer, ∅⟩ false).merge_with
        (AbstractLocalInfo.mk ⟨AbstractValueKind.AVK_Undefined, ∅⟩ true)).IsMaybeUndefined
      = (false || true) :=
  claim_C8.2 _ _ (by intro h; cases h) (fun _ => rfl)

/-- C9: the merge of abstract local states is commutative and idempotent. -/
theorem claim_C9 (x y : AbstractLocalInfo) :
    x.merge_with y = y.merge_with x ∧ x.merge_with x = x := by
  obtain ⟨⟨vx, sx⟩, mx⟩ := x
  obtain ⟨⟨vy, sy⟩, my⟩ := y
  constructor
  · simp only [AbstractLocalInfo.merge_with, AbstractValueWithSources.merge_with,
      AbstractLocalInfo.mk.injEq, AbstractValueWithSources.mk.injEq]
    exact ⟨⟨mergeKind_comm vx vy, Finset.union_comm sx sy⟩, Bool.or_comm mx my⟩
  · simp only [AbstractLocalInfo.merge_with, AbstractValueWithSources.merge_with,
      AbstractLocalInfo.mk.injEq, AbstractValueWithSources.mk.injEq]
    exact ⟨⟨mergeKind_self vx, Finset.union_self sx⟩, Bool.or_self mx⟩

/-- C10: on a non-empty stack, `pop` removes exactly the top entry, marks that entry's
sources escaped and leaves the locals and the remaining stack entries unchanged;
`pop_no_escape` removes the top entry without touching any escape flag; on an empty
stack both violate their asserted precondition (modelled as returning `none`). -/
theorem claim_C10 :
    (∀ (s : InterpreterState) (init : List AbstractValueWithSources)
        (top : AbstractValueWithSources),
      s.m_stack = init ++ [top] →
      s.pop = some (top.Value, ⟨init, s.m_locals, s.escapedSources ∪ top.Sources⟩) ∧
      s.pop_no_escape = some (top, ⟨init, s.m_locals, s.escapedSources⟩)) ∧
    (∀ s : InterpreterState, s.m_stack = [] →
      s.pop = none ∧ s.pop_no_escape = none) := by
  constructor
  · intro s init top h
    obtain ⟨st, lo, es⟩ := s
    simp only at h
    subst h
    constructor
    · simp [InterpreterState.pop, List.getLast?_concat, List.dropLast_concat]
    · simp [InterpreterState.pop_no_escape, List.getLast?_concat, List.dropLast_concat]
  · intro s h
    obtain ⟨st, lo, es⟩ := s
    simp only at h
    subst h
    exact ⟨rfl, rfl⟩

/-- Witness for C10 at a concrete one-element stack. -/
theorem claim_C10_witness :
    (InterpreterState.mk [⟨AbstractValueKind.AVK_Integer, {3}⟩] [] {5}).pop
        = some (AbstractValueKind.AVK_Integer, ⟨[], [], {5} ∪ {3}⟩) ∧
    (InterpreterState.mk [⟨AbstractValueKind.AVK_Integer, {3}⟩] [] {5}).pop_no_escape
        = some (⟨AbstractValueKind.AVK_Integer, {3}⟩, ⟨[], [], {5}⟩) :=
  claim_C10.1 _ [] ⟨AbstractValueKind.AVK_Integer, {3}⟩ rfl

/-- Counterexample to C1 as stated: at the constant index -1 on `bytearray(b'12')`
(bytes 49, 50) the compiled subscript raises IndexError while the host interpreter
returns 50, so the compiled function is distinguishable from the host. -/
theorem claim_C1_counterexample :
    compiledByteArraySubscript [49, 50] (-1) = Except.error PyExc.IndexError ∧
    hostByteArraySubscript [49, 50] (-1) = Except.ok 50 ∧
    compiledByteArraySubscript [49, 50] (-1) ≠ hostByteArraySubscript [49, 50] (-1) := by
  refine ⟨rfl, rfl, fun h => ?_⟩
  exact Except.noConfusion h

/-- C1 (amended): the compiled bytearray subscript agrees with the host interpreter for
every non-negative constant index, and in particular `bytearray(b'12')[2]` raises
IndexError; for negative constant indices such as -1 the compiled function raises
IndexError as the test suite asserts, diverging from the host. -/
theorem claim_C1_amended :
    (∀ (b : List ℕ) (i : ℤ), 0 ≤ i →
        compiledByteArraySubscript b i = hostByteArraySubscript b i) ∧
    compiledByteArraySubscript [49, 50] 2 = Except.error PyExc.IndexError ∧
    compiledByteArraySubscript [49, 50] (-1) = Except.error PyExc.IndexError := by
  refine ⟨?_, rfl, rfl⟩
  intro b i hi
  unfold compiledByteArraySubscript hostByteArraySubscript
  by_cases h : 0 ≤ i ∧ i < (b.length : ℤ)
  · simp [h]
  · have hneg : ¬(-(b.length : ℤ) ≤ i ∧ i < 0) := by
      intro hc
      omega
    simp [h, hneg]

/-- Witness for the amended C1 at the concrete in-range index 0. -/
theorem claim_C1_amended_witness :
    compiledByteArraySubscript [49, 50] 0 = hostByteArraySubscript [49, 50] 0 :=
  claim_C1_amended.1 [49, 50] 0 (by decide)

/-! ## Basic facts about the instruction-map embedding -/

theorem lookupN_cons (kv : ℕ × Instruction) (l : List (ℕ × Instruction)) (q : ℕ) :
    lookupN (kv :: l) q = if kv.1 = q then kv.2 else lookupN l q := by
  unfold lookupN
  rw [List.find?_cons]
  by_cases h : kv.1 = q
  · have hb : (kv.1 == q) = true := by simpa using h
    rw [hb, if_pos h]
  · have hb : (kv.1 == q) = false := by simpa using h
    rw [hb, if_neg h]

theorem setEscapeFalse_cons (kv : ℕ × Instruction) (l : List (ℕ × Instruction)) (pc : ℕ) :
    setEscapeFalse (kv :: l) pc =
      (if kv.1 = pc then (kv.1, { kv.2 with escape := false }) else kv) ::
        setEscapeFalse l pc := rfl

theorem lookupN_setEscapeFalse_self (l : List (ℕ × Instruction)) (pc : ℕ) :
    (lookupN (setEscapeFalse l pc) pc).escape = false := by
  induction l with
  | nil => rfl
  | cons kv l ih =>
      rw [setEscapeFalse_cons]
      by_cases hkp : kv.1 = pc
      · rw [if_pos hkp, lookupN_cons]
        simp [hkp]
      · rw [if_neg hkp, lookupN_cons, if_neg hkp]
        exact ih

theorem lookupN_setEscapeFalse_ne (l : List (ℕ × Instruction)) (pc q : ℕ) (h : q ≠ pc) :
    lookupN (setEscapeFalse l pc) q = lookupN l q := by
  induction l with
  | nil => rfl
  | cons kv l ih =>
      rw [setEscapeFalse_cons]
      by_cases hkp : kv.1 = pc
      · have hkq : ¬ kv.1 = q := fun hc => h (hc.symm.trans hkp)
        rw [if_pos hkp, lookupN_cons, lookupN_cons, if_neg hkq, if_neg hkq]
        exact ih
      · by_cases hkq : kv.1 = q
        · rw [if_neg hkp, lookupN_cons, lookupN_cons, if_pos hkq, if_pos hkq]
        · rw [if_neg hkp, lookupN_cons, lookupN_cons, if_neg hkq, if_neg hkq]
          exact ih

theorem lookupN_setEscapeFalse_opcode (l : List (ℕ × Instruction)) (pc q : ℕ) :
    (lookupN (setEscapeFalse l pc) q).opcode = (lookupN l q).opcode := by
  induction l with
  | nil => rfl
  | cons kv l ih =>
      rw [setEscapeFalse_cons]
      by_cases hkp : kv.1 = pc
      · by_cases hkq : kv.1 = q
        · rw [if_pos hkp, lookupN_cons, lookupN_cons, if_pos hkq, if_pos hkq]
        · rw [if_pos hkp, lookupN_cons, lookupN_cons, if_neg hkq, if_neg hkq]
          exact ih
      · by_cases hkq : kv.1 = q
        · rw [if_neg hkp, lookupN_cons, lookupN_cons, if_pos hkq, if_pos hkq]
        · rw [if_neg hkp, lookupN_cons, lookupN_cons, if_neg hkq, if_neg hkq]
          exact ih

theorem lookupN_escape_false_setEscapeFalse (l : List (ℕ × Instruction)) (pc q : ℕ)
    (h : (lookupN l q).escape = false) :
    (lookupN (setEscapeFalse l pc) q).escape = false := by
  by_cases hq : q = pc
  · subst hq
    exact lookupN_setEscapeFalse_self l q
  · rw [lookupN_setEscapeFalse_ne l pc q hq]
    exact h

theorem lookupN_of_nodup_mem (l : List (ℕ × Instruction)) (pc : ℕ) (i : Instruction)
    (hnd : (l.map Prod.fst).Nodup) (hm : (pc, i) ∈ l) : lookupN l pc = i := by
  induction l with
  | nil => cases hm
  | cons kv l ih =>
      rw [List.map_cons, List.nodup_cons] at hnd
      rcases List.mem_cons.1 hm with heq | htail
      · rw [lookupN_cons, ← heq]
        simp
      · have hkp : kv.1 ≠ pc := by
          intro hc
          exact hnd.1 (hc ▸ (List.mem_map.2 ⟨(pc, i), htail, rfl⟩))
        rw [lookupN_cons, if_neg hkp]
        exact ih hnd.2 htail

/-! ## deoptimizeInstructions: shape of one step -/

theorem deoptStep_eq_or (sf : ℕ → ℕ → ℤ) (e : List Edge)
    (cur : List (ℕ × Instruction)) (pc : ℕ) :
    deoptStep sf e cur pc = cur ∨ deoptStep sf e cur pc = setEscapeFalse cur pc := by
  dsimp only [deoptStep]
  split
  · exact Or.inl rfl
  · split
    · exact Or.inr rfl
    · split
      · split
        · exact Or.inr rfl
        · exact Or.inl rfl
      · split
        · exact Or.inr rfl
        · exact Or.inl rfl
      · exact Or.inl rfl

theorem foldl_deopt_escape_false (sf : ℕ → ℕ → ℤ) (e : List Edge)
    (ks : List ℕ) (cur : List (ℕ × Instruction)) (q : ℕ)
    (h : (lookupN cur q).escape = false) :
    (lookupN (ks.foldl (deoptStep sf e) cur) q).escape = false := by
  induction ks generalizing cur with
  | nil => exact h
  | cons k ks ih =>
      rw [List.foldl_cons]
      apply ih
      rcases deoptStep_eq_or sf e cur k with hd | hd <;> rw [hd]
      · exact h
      · exact lookupN_escape_false_setEscapeFalse cur k q h

theorem foldl_deopt_opcode (sf : ℕ → ℕ → ℤ) (e : List Edge)
    (ks : List ℕ) (cur : List (ℕ × Instruction)) (q : ℕ) :
    (lookupN (ks.foldl (deoptStep sf e) cur) q).opcode = (lookupN cur q).opcode := by
  induction ks generalizing cur with
  | nil => rfl
  | cons k ks ih =>
      rw [List.foldl_cons, ih]
      rcases deoptStep_eq_or sf e cur k with hd | hd <;> rw [hd]
      exact lookupN_setEscapeFalse_opcode cur k q

theorem foldl_deopt_not_mem (sf : ℕ → ℕ → ℤ) (e : List Edge)
    (ks : List ℕ) (cur : List (ℕ × Instruction)) (pc : ℕ) (h : pc ∉ ks) :
    lookupN (ks.foldl (deoptStep sf e) cur) pc = lookupN cur pc := by
  induction ks generalizing cur with
  | nil => rfl
  | cons k ks ih =>
      rw [List.foldl_cons]
      have hpk : pc ≠ k := fun hc => h (hc ▸ List.mem_cons_self k ks)
      rw [ih _ (fun hc => h (List.mem_cons_of_mem k hc))]
      rcases deoptStep_eq_or sf e cur k with hd | hd <;> rw [hd]
      exact lookupN_setEscapeFalse_ne cur k pc hpk

/-- C4: `deoptimizeInstructions` never sets an escape flag: an instruction whose escape
flag is false before the pass still has it false afterwards, so the escaped set can
only shrink. -/
theorem claim_C4 (stackEffect : ℕ → ℕ → ℤ) (g : InstructionGraph) (pc : ℕ)
    (h : (lookupN g.instructions pc).escape = false) :
    (lookupN (g.deoptimizeInstructions stackEffect).instructions pc).escape = false :=
  foldl_deopt_escape_false stackEffect g.edges _ g.instructions pc h

/-- Witness for C4 on a concrete one-instruction graph. -/
theorem claim_C4_witness :
    (lookupN (InstructionGraph.deoptimizeInstructions (fun _ _ => 0)
        ⟨[(0, ⟨0, BINARY_ADD, 0, false⟩)], []⟩).instructions 0).escape = false :=
  claim_C4 (fun _ _ => 0) ⟨[(0, ⟨0, BINARY_ADD, 0, false⟩)], []⟩ 0 (by decide)

theorem emod_twoPow64_ne (a b : ℤ)
    (ha1 : -2147483648 ≤ a) (ha2 : a ≤ 2147483647)
    (hb1 : -2147483648 ≤ b) (hb2 : b ≤ 2147483647)
    (hne : a ≠ b) : a % twoPow64 ≠ b % twoPow64 := by
  unfold twoPow64
  omega

/-- C5: an instruction that enters `deoptimizeInstructions` with its escape flag set
and whose opcode-table stack effect differs from `|outbound| - |inbound|` (the sizes
of the `getEdgesFrom` / `getEdges` lists) has its escape flag cleared by the pass.
The bounds on the stack effect (`int`) and on the edge counts reflect the machine
types of the source; the keys of the instruction map are unique, as they are in any
`unordered_map`. -/
theorem claim_C5 (stackEffect : ℕ → ℕ → ℤ) (g : InstructionGraph) (pc : ℕ)
    (i : Instruction)
    (hnodup : (g.instructions.map Prod.fst).Nodup)
    (hmem : (pc, i) ∈ g.instructions)
    (hesc : i.escape = true)
    (hlo : -2147483648 ≤ stackEffect i.opcode i.oparg)
    (hhi : stackEffect i.opcode i.oparg ≤ 2147483647)
    (hin : (edgesTo g.edges pc).length ≤ 1073741823)
    (hout : (edgesFrom g.edges pc).length ≤ 1073741823)
    (hne : stackEffect i.opcode i.oparg ≠
      ((edgesFrom g.edges pc).length : ℤ) - ((edgesTo g.edges pc).length : ℤ)) :
    (lookupN (g.deoptimizeInstructions stackEffect).instructions pc).escape = false := by
  have hpc : pc ∈ g.instructions.map Prod.fst :=
    List.mem_map.2 ⟨(pc, i), hmem, rfl⟩
  obtain ⟨l1, l2, hks⟩ := List.append_of_mem hpc
  have hnd := hnodup
  rw [hks, List.nodup_append] at hnd
  have hpc_l1 : pc ∉ l1 := fun hc => hnd.2.2 hc (List.mem_cons_self pc l2)
  have hpc_l2 : pc ∉ l2 := by
    have := hnd.2.1
    rw [List.nodup_cons] at this
    exact this.1
  show (lookupN ((g.instructions.map Prod.fst).foldl
      (deoptStep stackEffect g.edges) g.instructions) pc).escape = false
  rw [hks, List.foldl_append, List.foldl_cons]
  have hcur1 : lookupN (l1.foldl (deoptStep stackEffect g.edges) g.instructions) pc = i := by
    rw [foldl_deopt_not_mem _ _ _ _ _ hpc_l1]
    exact lookupN_of_nodup_mem _ _ _ hnodup hmem
  have hmis : stackEffect i.opcode i.oparg % twoPow64 ≠
      ((((edgesFrom g.edges pc).length : ℤ) -
        ((edgesTo g.edges pc).length : ℤ)) % twoPow64) :=
    emod_twoPow64_ne _ _ hlo hhi (by omega) (by omega) hne
  have hstep : deoptStep stackEffect g.edges
      (l1.foldl (deoptStep stackEffect g.edges) g.instructions) pc =
      setEscapeFalse (l1.foldl (deoptStep stackEffect g.edges) g.instructions) pc := by
    dsimp only [deoptStep]
    rw [hcur1, hesc]
    rw [if_neg (by simp)]
    rw [if_pos hmis]
  rw [hstep]
  exact foldl_deopt_escape_false _ _ _ _ _ (lookupN_setEscapeFalse_self _ pc)

/-- Witness for C5 on a concrete graph: one escaped instruction, no edges, and an
opcode table reporting stack effect 1 (differing from 0 - 0). -/
theorem claim_C5_witness :
    (lookupN (InstructionGraph.deoptimizeInstructions (fun _ _ => 1)
        ⟨[(0, ⟨0, BINARY_ADD, 0, true⟩)], []⟩).instructions 0).escape = false :=
  claim_C5 (fun _ _ => 1) ⟨[(0, ⟨0, BINARY_ADD, 0, true⟩)], []⟩ 0 ⟨0, BINARY_ADD, 0, true⟩
    (by decide) (by decide) rfl (by decide) (by decide) (by decide) (by decide) (by decide)

/-! ## C6: EXTENDED_ARG collapsing -/

/-- C6 (code bug): on the bytecode `EXTENDED_ARG 1; EXTENDED_ARG 2; LOAD_CONST 3` the
constructor records the terminating instruction (at byte offset 4) with oparg 3 — only
one prefix is merged by the `if` in the decode loop — instead of the full collapsed
value `(1 << 16) | (2 << 8) | 3 = 66051` required by the claim (and by CPython's
bytecode format).  The single-prefix case, by contrast, does collapse fully. -/
theorem claim_C6 :
    lookupN (buildInstructions [(EXTENDED_ARG, 1), (EXTENDED_ARG, 2), (LOAD_CONST, 3)] 0) 4
      = ⟨4, LOAD_CONST, 3, false⟩ ∧
    (lookupN (buildInstructions [(EXTENDED_ARG, 1), (EXTENDED_ARG, 2), (LOAD_CONST, 3)] 0)
        4).oparg ≠ (1 <<< 16) ||| (2 <<< 8) ||| 3 ∧
    lookupN (buildInstructions [(EXTENDED_ARG, 1), (LOAD_CONST, 3)] 0) 2
      = ⟨2, LOAD_CONST, (1 <<< 8) ||| 3, false⟩ := by
  refine ⟨by decide, by decide, by decide⟩

/-! ## C2: the escape invariant established by the constructor -/

theorem buildInstructions_escape_false (us : List (ℕ × ℕ)) (b : ℕ) :
    ∀ kv ∈ buildInstructions us b, kv.2.escape = false := by
  induction us, b using buildInstructions.induct with
  | case1 b =>
      intro kv h
      cases h
  | case2 oparg curByte =>
      intro kv h
      rw [show buildInstructions [(EXTENDED_ARG, oparg)] curByte =
            [(curByte, ⟨curByte, EXTENDED_ARG, oparg, false⟩),
             (curByte + 2, ⟨curByte + 2, 0, oparg <<< 8, false⟩)] from rfl] at h
      rcases List.mem_cons.1 h with rfl | h
      · rfl
      · rcases List.mem_cons.1 h with rfl | h
        · rfl
        · cases h
  | case3 oparg curByte opcode2 oparg2 rest2 ih =>
      intro kv h
      rw [show buildInstructions ((EXTENDED_ARG, oparg) :: (opcode2, oparg2) :: rest2)
            curByte =
            (curByte, ⟨curByte, EXTENDED_ARG, oparg, false⟩) ::
              (curByte + 2, ⟨curByte + 2, opcode2, (oparg <<< 8) ||| oparg2, false⟩) ::
                buildInstructions rest2 (curByte + 4) from rfl] at h
      rcases List.mem_cons.1 h with rfl | h
      · rfl
      · rcases List.mem_cons.1 h with rfl | h
        · rfl
        · exact ih kv h
  | case4 opcode oparg rest curByte hop ih =>
      intro kv h
      rcases rest with _ | ⟨⟨opcode2, oparg2⟩, rest2⟩
      · rw [buildInstructions.eq_2, if_neg hop] at h
        rcases List.mem_cons.1 h with rfl | h
        · rfl
        · cases h
      · rw [buildInstructions.eq_3, if_neg hop] at h
        rcases List.mem_cons.1 h with rfl | h
        · rfl
        · exact ih kv h

theorem lookupN_fixInstructions (su : ℕ → Bool) (se : AbstractValueKind → Bool)
    (g : InstructionGraph) (pc : ℕ) :
    lookupN (InstructionGraph.fixInstructions su se g).instructions pc =
      match g.instructions.find? (fun kv => kv.1 == pc) with
      | some kv => fixInstructionOne su se g.edges kv.1 kv.2
      | none => default := by
  show lookupN (g.instructions.map
    (fun kv => (kv.1, fixInstructionOne su se g.edges kv.1 kv.2))) pc = _
  unfold lookupN
  rw [List.find?_map]
  have hcomp : ((fun kv : ℕ × Instruction => kv.1 == pc) ∘
      (fun kv : ℕ × Instruction => (kv.1, fixInstructionOne su se g.edges kv.1 kv.2))) =
      fun kv : ℕ × Instruction => kv.1 == pc := rfl
  rw [hcomp]
  cases g.instructions.find? (fun kv : ℕ × Instruction => kv.1 == pc) <;> rfl

theorem fixInstructionOne_escape_true (su : ℕ → Bool) (se : AbstractValueKind → Bool)
    (edges : List Edge) (pc : ℕ) (i : Instruction)
    (h0 : i.escape = false)
    (h : (fixInstructionOne su se edges pc i).escape = true) :
    su i.opcode = true ∧
    i.opcode ≠ LOAD_FAST ∧ i.opcode ≠ STORE_FAST ∧
    (∀ e ∈ edgesTo edges pc, se e.kind = true) ∧
    (∀ e ∈ edgesFrom edges pc, se e.kind = true) ∧
    (fixInstructionOne su se edges pc i).opcode = i.opcode := by
  unfold fixInstructionOne at h ⊢
  split_ifs at h ⊢ with h1 h2 h3 h4
  · exact absurd (h0 ▸ h) (by simp)
  · exact absurd (h0 ▸ h) (by simp)
  · exact absurd (h0 ▸ h) (by simp)
  · exact absurd (h0 ▸ h) (by simp)
  · refine ⟨?_, ?_, ?_, ?_, ?_, rfl⟩
    · simpa using h1
    · intro hc
      exact h2 (Or.inl hc)
    · intro hc
      exact h2 (Or.inr hc)
    · intro e he
      have h3' : (edgesTo edges pc).all (fun e => se e.kind) = true := by simpa using h3
      exact (List.all_eq_true.1 h3') e he
    · intro e he
      have h4' : (edgesFrom edges pc).all (fun e => se e.kind) = true := by simpa using h4
      exact (List.all_eq_true.1 h4') e he

theorem filterMap_getLast?_map (f : Edge → Edge)
    (hpos : ∀ e, (f e).position = e.position) (s : List Edge) (r : List ℕ) :
    r.filterMap (fun p => ((s.map f).filter (fun e => e.position == p)).getLast?) =
      (r.filterMap (fun p => (s.filter (fun e => e.position == p)).getLast?)).map f := by
  have h3 : ∀ p : ℕ,
      ((s.map f).filter (fun e => e.position == p)).getLast? =
        ((s.filter (fun e => e.position == p)).getLast?).map f := by
    intro p
    rw [List.filter_map]
    have hc : ((fun e : Edge => e.position == p) ∘ f) =
        fun e : Edge => e.position == p := by
      funext e
      show ((f e).position == p) = (e.position == p)
      rw [hpos]
    rw [hc, List.getLast?_map]
  simp only [h3]
  rw [List.map_filterMap]

theorem foldl_max_position_map (f : Edge → Edge)
    (hpos : ∀ e, (f e).position = e.position) (s : List Edge) :
    (s.map f).foldl (fun m e => max m e.position) 0 =
      s.foldl (fun m e => max m e.position) 0 := by
  rw [List.foldl_map]
  have : (fun (m : ℕ) (e : Edge) => max m (f e).position) =
      fun (m : ℕ) (e : Edge) => max m e.position := by
    funext m e
    rw [hpos]
  rw [this]

theorem edgesTo_map (f : Edge → Edge)
    (hto : ∀ e, (f e).to = e.to) (hpos : ∀ e, (f e).position = e.position)
    (l : List Edge) (idx : ℕ) :
    edgesTo (l.map f) idx = (edgesTo l idx).map f := by
  have h1 : (l.map f).filter (fun e => e.to == idx) =
      (l.filter (fun e => e.to == idx)).map f := by
    rw [List.filter_map]
    have hc : (l.filter ((fun e : Edge => e.to == idx) ∘ f)) =
        l.filter (fun e : Edge => e.to == idx) :=
      List.filter_congr (fun e _ => by
        show ((f e).to == idx) = (e.to == idx)
        rw [hto])
    rw [hc]
  show (List.range ((((l.map f).filter (fun e => e.to == idx)).foldl
      (fun m e => max m e.position) 0) + 1)).filterMap
        (fun p => (((l.map f).filter (fun e => e.to == idx)).filter
          (fun e => e.position == p)).getLast?) = (edgesTo l idx).map f
  rw [h1, foldl_max_position_map f hpos, filterMap_getLast?_map f hpos]
  rfl

theorem edgesFrom_map (f : Edge → Edge)
    (hfrom : ∀ e, (f e).«from» = e.«from») (hpos : ∀ e, (f e).position = e.position)
    (l : List Edge) (idx : ℕ) :
    edgesFrom (l.map f) idx = (edgesFrom l idx).map f := by
  have h1 : (l.map f).filter (fun e => e.«from» == (idx : ℤ)) =
      (l.filter (fun e => e.«from» == (idx : ℤ))).map f := by
    rw [List.filter_map]
    have hc : (l.filter ((fun e : Edge => e.«from» == (idx : ℤ)) ∘ f)) =
        l.filter (fun e : Edge => e.«from» == (idx : ℤ)) :=
      List.filter_congr (fun e _ => by
        show ((f e).«from» == (idx : ℤ)) = (e.«from» == (idx : ℤ))
        rw [hfrom])
    rw [hc]
  show (List.range ((((l.map f).filter (fun e => e.«from» == (idx : ℤ))).foldl
      (fun m e => max m e.position) 0) + 1)).filterMap
        (fun p => (((l.map f).filter (fun e => e.«from» == (idx : ℤ))).filter
          (fun e => e.position == p)).getLast?) = (edgesFrom l idx).map f
  rw [h1, foldl_max_position_map f hpos, filterMap_getLast?_map f hpos]
  rfl

/-- C2: after the `InstructionGraph` constructor completes, every instruction whose
escape flag is true has an opcode in the unboxing whitelist, is not LOAD_FAST or
STORE_FAST, and every inbound edge and every outbound edge of that instruction (the
lists `getEdges` / `getEdgesFrom` return) has a kind for which `supportsEscaping`
holds. -/
theorem claim_C2 (supportsUnboxing : ℕ → Bool) (supportsEscaping : AbstractValueKind → Bool)
    (stackEffect : ℕ → ℕ → ℤ) (units : List (ℕ × ℕ))
    («stacks» : ℕ → Option (List StackEntryModel)) (pc : ℕ)
    (hesc : (lookupN (InstructionGraph.construct supportsUnboxing supportsEscaping
        stackEffect units «stacks»).instructions pc).escape = true) :
    supportsUnboxing (lookupN (InstructionGraph.construct supportsUnboxing supportsEscaping
        stackEffect units «stacks»).instructions pc).opcode = true ∧
    (lookupN (InstructionGraph.construct supportsUnboxing supportsEscaping
        stackEffect units «stacks»).instructions pc).opcode ≠ LOAD_FAST ∧
    (lookupN (InstructionGraph.construct supportsUnboxing supportsEscaping
        stackEffect units «stacks»).instructions pc).opcode ≠ STORE_FAST ∧
    (∀ e ∈ edgesTo (InstructionGraph.construct supportsUnboxing supportsEscaping
        stackEffect units «stacks»).edges pc, supportsEscaping e.kind = true) ∧
    (∀ e ∈ edgesFrom (InstructionGraph.construct supportsUnboxing supportsEscaping
        stackEffect units «stacks»).edges pc, supportsEscaping e.kind = true) := by
  have h1 : (lookupN (InstructionGraph.fixInstructions supportsUnboxing supportsEscaping
      (InstructionGraph.build units «stacks»)).instructions pc).escape = true := by
    by_contra hc
    have hf : (lookupN (InstructionGraph.fixInstructions supportsUnboxing supportsEscaping
        (InstructionGraph.build units «stacks»)).instructions pc).escape = false := by
      cases hb : (lookupN (InstructionGraph.fixInstructions supportsUnboxing supportsEscaping
          (InstructionGraph.build units «stacks»)).instructions pc).escape
      · rfl
      · exact absurd hb hc
    have hfold := foldl_deopt_escape_false stackEffect
      (InstructionGraph.build units «stacks»).edges
      ((InstructionGraph.fixInstructions supportsUnboxing supportsEscaping
        (InstructionGraph.build units «stacks»)).instructions.map Prod.fst)
      (InstructionGraph.fixInstructions supportsUnboxing supportsEscaping
        (InstructionGraph.build units «stacks»)).instructions pc hf
    exact absurd (hfold ▸ hesc) (by simp)
  rw [lookupN_fixInstructions] at h1
  cases hfind : (InstructionGraph.build units «stacks»).instructions.find?
      (fun kv => kv.1 == pc) with
  | none =>
      rw [hfind] at h1
      exact Bool.noConfusion h1
  | some kv =>
      rw [hfind] at h1
      have hkey : kv.1 = pc := by
        have := List.find?_some hfind
        simpa using this
      have hmem := List.mem_of_find?_eq_some hfind
      have h0 : kv.2.escape = false := buildInstructions_escape_false units 0 kv hmem
      have h1' : (fixInstructionOne supportsUnboxing supportsEscaping
          (InstructionGraph.build units «stacks»).edges pc kv.2).escape = true := by
        rw [← hkey]
        exact h1
      obtain ⟨hsu, hlf, hsf, hallin, hallout, hopeq⟩ :=
        fixInstructionOne_escape_true supportsUnboxing supportsEscaping
          (InstructionGraph.build units «stacks»).edges pc kv.2 h0 h1'
      have hop : (lookupN (InstructionGraph.construct supportsUnboxing supportsEscaping
          stackEffect units «stacks»).instructions pc).opcode = kv.2.opcode := by
        have h2 : (lookupN (InstructionGraph.construct supportsUnboxing supportsEscaping
            stackEffect units «stacks»).instructions pc).opcode =
            (lookupN (InstructionGraph.fixInstructions supportsUnboxing supportsEscaping
              (InstructionGraph.build units «stacks»)).instructions pc).opcode :=
          foldl_deopt_opcode stackEffect (InstructionGraph.build units «stacks»).edges
            ((InstructionGraph.fixInstructions supportsUnboxing supportsEscaping
              (InstructionGraph.build units «stacks»)).instructions.map Prod.fst)
            (InstructionGraph.fixInstructions supportsUnboxing supportsEscaping
              (InstructionGraph.build units «stacks»)).instructions pc
        rw [h2, lookupN_fixInstructions, hfind]
        have hred : (fixInstructionOne supportsUnboxing supportsEscaping
            (InstructionGraph.build units «stacks»).edges kv.1 kv.2).opcode =
            kv.2.opcode := by
          rw [hkey]
          exact hopeq
        exact hred
      refine ⟨?_, ?_, ?_, ?_, ?_⟩
      · rw [hop]
        exact hsu
      · rw [hop]
        exact hlf
      · rw [hop]
        exact hsf
      · intro e he
        have he' : e ∈ edgesTo ((InstructionGraph.build units «stacks»).edges.map
            (fun ed =>
              { ed with
                escaped :=
                  fixEdgeTransition
                    (InstructionGraph.deoptimizeInstructions stackEffect
                      (InstructionGraph.fixInstructions supportsUnboxing supportsEscaping
                        (InstructionGraph.build units «stacks»))).instructions ed })) pc := he
        have hmap := edgesTo_map
          (fun ed =>
            { ed with
              escaped :=
                fixEdgeTransition
                  (InstructionGraph.deoptimizeInstructions stackEffect
                    (InstructionGraph.fixInstructions supportsUnboxing supportsEscaping
                      (InstructionGraph.build units «stacks»))).instructions ed })
          (fun _ => rfl) (fun _ => rfl)
          (InstructionGraph.build units «stacks»).edges pc
        rw [hmap] at he'
        obtain ⟨e0, he0, hfe⟩ := List.mem_map.1 he'
        have hk : e.kind = e0.kind := by
          rw [← hfe]
        rw [hk]
        exact hallin e0 he0
      · intro e he
        have he' : e ∈ edgesFrom ((InstructionGraph.build units «stacks»).edges.map
            (fun ed =>
              { ed with
                escaped :=
                  fixEdgeTransition
                    (InstructionGraph.deoptimizeInstructions stackEffect
                      (InstructionGraph.fixInstructions supportsUnboxing supportsEscaping
                        (InstructionGraph.build units «stacks»))).instructions ed })) pc := he
        have hmap := edgesFrom_map
          (fun ed =>
            { ed with
              escaped :=
                fixEdgeTransition
                  (InstructionGraph.deoptimizeInstructions stackEffect
                    (InstructionGraph.fixInstructions supportsUnboxing supportsEscaping
                      (InstructionGraph.build units «stacks»))).instructions ed })
          (fun _ => rfl) (fun _ => rfl)
          (InstructionGraph.build units «stacks»).edges pc
        rw [hmap] at he'
        obtain ⟨e0, he0, hfe⟩ := List.mem_map.1 he'
        have hk : e.kind = e0.kind := by
          rw [← hfe]
        rw [hk]
        exact hallout e0 he0

/-- Witness for C2: one BINARY_ADD instruction, no edges; the whitelist accepts opcode
23, so the constructor escapes it and the invariant is checked there. -/
theorem claim_C2_witness :
    supportsUnboxingW (lookupN (InstructionGraph.construct supportsUnboxingW
        (fun _ => true) (fun _ _ => 0) [(BINARY_ADD, 0)] (fun _ => none)).instructions
        0).opcode = true ∧
    (lookupN (InstructionGraph.construct supportsUnboxingW (fun _ => true) (fun _ _ => 0)
        [(BINARY_ADD, 0)] (fun _ => none)).instructions 0).opcode ≠ LOAD_FAST ∧
    (lookupN (InstructionGraph.construct supportsUnboxingW (fun _ => true) (fun _ _ => 0)
        [(BINARY_ADD, 0)] (fun _ => none)).instructions 0).opcode ≠ STORE_FAST ∧
    (∀ e ∈ edgesTo (InstructionGraph.construct supportsUnboxingW (fun _ => true)
        (fun _ _ => 0) [(BINARY_ADD, 0)] (fun _ => none)).edges 0,
      (fun _ : AbstractValueKind => true) e.kind = true) ∧
    (∀ e ∈ edgesFrom (InstructionGraph.construct supportsUnboxingW (fun _ => true)
        (fun _ _ => 0) [(BINARY_ADD, 0)] (fun _ => none)).edges 0,
      (fun _ : AbstractValueKind => true) e.kind = true) :=
  claim_C2 supportsUnboxingW (fun _ => true) (fun _ _ => 0) [(BINARY_ADD, 0)]
    (fun _ => none) 0 (by decide)

/-- C3: after `fixEdges` runs, every edge's boxing transition is exactly the 2-by-2
table applied to the escape flags of its producer and consumer instructions. -/
theorem claim_C3 (g : InstructionGraph) (e : Edge)
    (he : e ∈ (g.fixEdges).edges) :
    e.escaped = boxingTransitionTable
      (lookupZ (g.fixEdges).instructions e.«from»).escape
      (lookupN (g.fixEdges).instructions e.to).escape := by
  obtain ⟨e0, he0, rfl⟩ := List.mem_map.1 he
  show fixEdgeTransition g.instructions e0 = boxingTransitionTable
    (lookupZ g.instructions e0.«from»).escape (lookupN g.instructions e0.to).escape
  unfold fixEdgeTransition boxingTransitionTable
  cases hf : (lookupZ g.instructions e0.«from»).escape <;>
    cases ht : (lookupN g.instructions e0.to).escape <;> simp

/-- Witness for C3 on a concrete two-instruction graph with one edge, producer escaped
and consumer not (the `Box` row of the table). -/
theorem claim_C3_witness :
    (⟨0, 2, AbstractValueKind.AVK_Integer, 0, EscapeTransition.Box⟩ : Edge).escaped
      = boxingTransitionTable
        (lookupZ (InstructionGraph.fixEdges
            ⟨[(0, ⟨0, BINARY_ADD, 0, true⟩), (2, ⟨2, BINARY_ADD, 0, false⟩)],
             [⟨0, 2, AbstractValueKind.AVK_Integer, 0, EscapeTransition.NoEscape⟩]⟩).instructions
          (0 : ℤ)).escape
        (lookupN (InstructionGraph.fixEdges
            ⟨[(0, ⟨0, BINARY_ADD, 0, true⟩), (2, ⟨2, BINARY_ADD, 0, false⟩)],
             [⟨0, 2, AbstractValueKind.AVK_Integer, 0, EscapeTransition.NoEscape⟩]⟩).instructions
          2).escape :=
  claim_C3
    ⟨[(0, ⟨0, BINARY_ADD, 0, true⟩), (2, ⟨2, BINARY_ADD, 0, false⟩)],
     [⟨0, 2, AbstractValueKind.AVK_Integer, 0, EscapeTransition.NoEscape⟩]⟩
    ⟨0, 2, AbstractValueKind.AVK_Integer, 0, EscapeTransition.Box⟩
    (by decide)

/-! ## C7: shape of the inbound edge lists -/

theorem getLast?_mem {α : Type} (l : List α) (a : α) (h : l.getLast? = some a) :
    a ∈ l := by
  induction l with
  | nil => cases h
  | cons x l ih =>
      cases l with
      | nil =>
          have : x = a := by
            simpa using h
          rw [this]
          exact List.mem_cons_self a []
      | cons y l' =>
          rw [List.getLast?_cons_cons] at h
          exact List.mem_cons_of_mem x (ih h)

theorem le_foldl_max_init (l : List ℕ) (b : ℕ) : b ≤ l.foldl max b := by
  induction l generalizing b with
  | nil => exact Nat.le_refl b
  | cons a l ih => exact Nat.le_trans (Nat.le_max_left b a) (ih (max b a))

theorem mem_le_foldl_max (l : List ℕ) (b x : ℕ) (hx : x ∈ l) : x ≤ l.foldl max b := by
  induction l generalizing b with
  | nil => cases hx
  | cons a l ih =>
      rcases List.mem_cons.1 hx with rfl | hx'
      · exact Nat.le_trans (Nat.le_trans (Nat.le_max_right b x)
          (le_foldl_max_init l (max b x))) (Nat.le_refl _)
      · exact ih hx' (b := max b a)

theorem foldl_max_mem (l : List ℕ) (b : ℕ) : l.foldl max b = b ∨ l.foldl max b ∈ l := by
  induction l generalizing b with
  | nil => exact Or.inl rfl
  | cons a l ih =>
      rcases ih (max b a) with h | h
      · rcases Nat.le_total a b with hab | hab
        · left
          rw [List.foldl_cons, h]
          exact Nat.max_eq_left hab
        · right
          rw [List.foldl_cons, h]
          rw [Nat.max_eq_right hab]
          exact List.mem_cons_self a l
      · right
        rw [List.foldl_cons]
        exact List.mem_cons_of_mem a h

theorem filterMap_positions (g : ℕ → Option Edge) (l : List ℕ)
    (h : ∀ p ∈ l, ∃ e, g p = some e ∧ e.position = p) :
    (l.filterMap g).map (fun e => e.position) = l := by
  induction l with
  | nil => rfl
  | cons p l ih =>
      obtain ⟨e, hg, hp⟩ := h p (List.mem_cons_self p l)
      rw [List.filterMap_cons_some hg, List.map_cons, hp,
        ih (fun q hq => h q (List.mem_cons_of_mem _ hq))]

/-- C7: if the raw inbound edges of `pc` carry exactly the stack positions
`0, ..., k-1` (one edge per consumed slot — the spec's guarantee about the analyser's
consumer records), then `getEdges` returns them ordered by strictly ascending position,
exactly one per slot, with positions forming the contiguous set `0, ..., k-1`. -/
theorem claim_C7 (edges : List Edge) (pc k : ℕ)
    (h : ((edges.filter (fun e => e.to == pc)).map (fun e => e.position)).Perm
      (List.range k)) :
    (edgesTo edges pc).map (fun e => e.position) = List.range k ∧
    (edgesTo edges pc).length = k := by
  have hmem : ∀ p : ℕ,
      (p ∈ (edges.filter (fun e => e.to == pc)).map (fun e => e.position)) ↔ p < k := by
    intro p
    rw [h.mem_iff, List.mem_range]
  rcases Nat.eq_zero_or_pos k with hk0 | hkpos
  · subst hk0
    have hps_nil : (edges.filter (fun e => e.to == pc)).map (fun e => e.position) = [] :=
      List.Perm.eq_nil h
    have hs_nil : edges.filter (fun e => e.to == pc) = [] :=
      List.map_eq_nil_iff.1 hps_nil
    have hempty : edgesTo edges pc = [] := by
      dsimp only [edgesTo]
      rw [hs_nil]
      rfl
    rw [hempty]
    exact ⟨rfl, rfl⟩
  · have hfold_eq : (edges.filter (fun e => e.to == pc)).foldl
        (fun m e => max m e.position) 0 =
        ((edges.filter (fun e => e.to == pc)).map (fun e => e.position)).foldl max 0 := by
      rw [List.foldl_map]
    have hmax : (edges.filter (fun e => e.to == pc)).foldl
        (fun m e => max m e.position) 0 = k - 1 := by
      rw [hfold_eq]
      have hub : ((edges.filter (fun e => e.to == pc)).map
          (fun e => e.position)).foldl max 0 ≤ k - 1 := by
        rcases foldl_max_mem ((edges.filter (fun e => e.to == pc)).map
            (fun e => e.position)) 0 with h0 | hmem'
        · rw [h0]
          omega
        · have := (hmem _).1 hmem'
          omega
      have hlb : k - 1 ≤ ((edges.filter (fun e => e.to == pc)).map
          (fun e => e.position)).foldl max 0 := by
        have hkm : (k - 1) ∈ (edges.filter (fun e => e.to == pc)).map
            (fun e => e.position) := (hmem _).2 (by omega)
        exact mem_le_foldl_max _ 0 _ hkm
      omega
    have hexists : ∀ p ∈ List.range k, ∃ e,
        ((edges.filter (fun e => e.to == pc)).filter
          (fun e => e.position == p)).getLast? = some e ∧ e.position = p := by
      intro p hp
      have hpk : p < k := List.mem_range.1 hp
      have hpin : p ∈ (edges.filter (fun e => e.to == pc)).map (fun e => e.position) :=
        (hmem p).2 hpk
      obtain ⟨e, hes, hep⟩ := List.mem_map.1 hpin
      have hef : e ∈ (edges.filter (fun e => e.to == pc)).filter
          (fun e => e.position == p) :=
        List.mem_filter.2 ⟨hes, by simp [hep]⟩
      cases hg : ((edges.filter (fun e => e.to == pc)).filter
          (fun e => e.position == p)).getLast? with
      | none =>
          rw [List.getLast?_eq_none_iff.1 hg] at hef
          cases hef
      | some e' =>
          refine ⟨e', rfl, ?_⟩
          have hmm := getLast?_mem _ _ hg
          have := (List.mem_filter.1 hmm).2
          simpa using this
    have hmain : edgesTo edges pc = (List.range k).filterMap
        (fun p => ((edges.filter (fun e => e.to == pc)).filter
          (fun e => e.position == p)).getLast?) := by
      dsimp only [edgesTo]
      rw [hmax]
      have : k - 1 + 1 = k := by omega
      rw [this]
    constructor
    · rw [hmain]
      exact filterMap_positions _ _ hexists
    · have h1 : ((edgesTo edges pc).map (fun e => e.position)).length =
          (List.range k).length := by
        rw [hmain, filterMap_positions _ _ hexists]
      simpa [List.length_map, List.length_range] using h1

/-- Witness for C7 on two concrete inbound edges at positions 0 and 1. -/
theorem claim_C7_witness :
    (edgesTo [(⟨-1, 0, AbstractValueKind.AVK_Integer, 0, EscapeTransition.NoEscape⟩ : Edge),
        ⟨-1, 0, AbstractValueKind.AVK_Float, 1, EscapeTransition.NoEscape⟩] 0).map
      (fun e => e.position) = List.range 2 ∧
    (edgesTo [(⟨-1, 0, AbstractValueKind.AVK_Integer, 0, EscapeTransition.NoEscape⟩ : Edge),
        ⟨-1, 0, AbstractValueKind.AVK_Float, 1, EscapeTransition.NoEscape⟩] 0).length = 2 :=
  claim_C7 [⟨-1, 0, AbstractValueKind.AVK_Integer, 0, EscapeTransition.NoEscape⟩,
    ⟨-1, 0, AbstractValueKind.AVK_Float, 1, EscapeTransition.NoEscape⟩] 0 2 (by decide)

end Pyjion
